import Mathlib

/-!
Verification development for the LinkedIn profile-extractor background
service worker (`background.js`).

Modelling conventions:
* JS strings are Lean `String`s; an absent (`undefined`) string field is
  modelled as `""`, matching the `||`/truthiness coercions the source uses.
* Millisecond timestamps are `Int` (JS numbers used as integral epoch
  milliseconds).
* `Date.parse` is an abstract parameter `pd : String → Option Int`
  (`none` models `NaN`).
* ASCII case folding (`jsLower`) models `String.prototype.toLowerCase`
  on the alphabets that occur here; string primitives are modelled on the
  character-list representation so that every definition evaluates inside
  the kernel.
* The browser DOM and the chrome.* event sources are external state; they
  enter the model as explicit inputs (lists of events, lookup results,
  candidate element data).
-/

/-- Constant from `background.js` line 8. -/
def DEFAULT_PDF_FILENAME : String := "linkedin-profile.pdf"

/-- Constant from `background.js` line 7. -/
def FILENAME_CORRELATION_WINDOW_MS : Int := 90000

/-- `sub` occurs as a contiguous substring of `s` — models
`String.prototype.includes`. -/
def strIncludes (s sub : String) : Bool := decide (sub.toList <:+: s.toList)

/-- Models `String.prototype.endsWith`. -/
def strEndsWith (s suffix : String) : Bool := decide (suffix.toList <:+ s.toList)

/-- Models `String.prototype.startsWith`. -/
def strStartsWith (s p : String) : Bool := decide (p.toList <+: s.toList)

/-- ASCII case folding: models `String.prototype.toLowerCase` on the
alphabets that occur in this program. -/
def jsLower (c : Char) : Char :=
  if 65 ≤ c.toNat ∧ c.toNat ≤ 90 then Char.ofNat (c.toNat + 32) else c

/-- Models `String.prototype.toLowerCase`. -/
def strLower (s : String) : String := (s.toList.map jsLower).asString

/-- Models `String.prototype.trim` (ASCII whitespace). -/
def strTrim (s : String) : String :=
  (((s.toList.dropWhile Char.isWhitespace).reverse.dropWhile Char.isWhitespace).reverse).asString

/-- Models `String.prototype.split` with a one-character separator. -/
def splitOnChar (sep : Char) (l : List Char) : List (List Char) :=
  l.foldr
    (fun c acc =>
      match acc with
      | [] => [[c]]
      | cur :: rest => if c = sep then [] :: cur :: rest else (c :: cur) :: rest)
    [[]]

/-- Character class `[a-z0-9-]` from the slug regexes in
`extractProfileSlugFromUrl` (`background.js` lines 579-583). -/
def isSlugChar (c : Char) : Bool :=
  (decide (97 ≤ c.toNat) && decide (c.toNat ≤ 122)) ||
  (decide (48 ≤ c.toNat) && decide (c.toNat ≤ 57)) || c == '-'

/-- Worker for `collapseRuns`; the flag records whether the previous
character was part of a run already replaced by `rep`. -/
def collapseRunsAux (p : Char → Bool) (rep : Char) : Bool → List Char → List Char
  | _, [] => []
  | inRun, c :: cs =>
    if p c then
      if inRun then collapseRunsAux p rep true cs
      else rep :: collapseRunsAux p rep true cs
    else c :: collapseRunsAux p rep false cs

/-- Replace every maximal run of characters satisfying `p` by the single
character `rep`; models `String.prototype.replace` with a global regex of
the form `/X+/g` where `X` is the class decided by `p`. -/
def collapseRuns (p : Char → Bool) (rep : Char) (l : List Char) : List Char :=
  collapseRunsAux p rep false l

/-- Remove one leading `'-'` if present; half of `replace(/^-|-$/g, "")`. -/
def dropLeadHyphen : List Char → List Char
  | [] => []
  | c :: cs => if c = '-' then cs else c :: cs

/-- `replace(/^-|-$/g, "")`: strip one leading and one trailing hyphen. -/
def trimHyphens (l : List Char) : List Char :=
  (dropLeadHyphen ((dropLeadHyphen l).reverse)).reverse

/-- The slug normalisation pipeline of `extractProfileSlugFromUrl`
(`background.js` lines 579-583): lower-case, collapse runs of characters
outside `[a-z0-9-]` to `-`, collapse runs of `-` to a single `-`, strip a
leading/trailing `-`. -/
def slugTransform (l : List Char) : List Char :=
  trimHyphens
    (collapseRuns (fun c => c == '-') '-'
      (collapseRuns (fun c => !(isSlugChar c)) '-' (l.map jsLower)))

/-- Scheme / host / path of a parsed absolute URL (query and fragment are
dropped by every consumer in `background.js`, so they are not retained). -/
structure URLParts where
  scheme : String
  host : String
  path : String
  deriving Repr, DecidableEq

/-- Schemes the WHATWG parser treats as "special" (authority-bearing with
lenient slash handling); `file` is irrelevant here and omitted. -/
def specialSchemes : List String := ["http", "https", "ws", "wss", "ftp"]

/-- The part of an authority after the last `'@'` (user-info stripping). -/
def afterLastAt (l : List Char) : List Char :=
  (l.reverse.takeWhile (fun c => c ≠ '@')).reverse

/-- Models the host platform's `new URL(raw)` (WHATWG URL parser) on the
fragment exercised by this extension: absolute-URL scheme recognition,
authority extraction (user-info and port stripped, host lower-cased,
backslashes treated as slashes for special schemes), and the path with
query/fragment removed.  Not modelled: IDNA host mapping, percent-encoding,
dot-segment normalisation, and input whitespace stripping. `none` models
the `TypeError` thrown on unparseable input. -/
def parseURL (raw : String) : Option URLParts :=
  let cs := raw.toList
  let schemeChars := cs.takeWhile (fun c => c ≠ ':')
  if schemeChars.length = cs.length then none  -- no colon: not an absolute URL
  else if schemeChars = [] then none
  else if ¬ (schemeChars.headD 'a').isAlpha then none
  else if ¬ schemeChars.all (fun c => c.isAlphanum || c == '+' || c == '-' || c == '.') then none
  else
    let scheme := ((schemeChars.map jsLower).asString)
    let rest := cs.drop (schemeChars.length + 1)
    if specialSchemes.contains scheme then
      let afterSlashes := rest.dropWhile (fun c => c == '/' || c == '\\')
      let authority := afterSlashes.takeWhile
        (fun c => ¬(c = '/' ∨ c = '\\' ∨ c = '?' ∨ c = '#'))
      if authority = [] then none  -- special schemes require a non-empty host
      else
        let hostname := (afterLastAt authority).takeWhile (fun c => c ≠ ':')
        if hostname = [] then none
        else
          let afterAuth := afterSlashes.drop authority.length
          let pathQF := afterAuth.takeWhile (fun c => ¬(c = '?' ∨ c = '#'))
          let path := pathQF.map (fun c => if c = '\\' then '/' else c)
          some { scheme := scheme,
                 host := (hostname.map jsLower).asString,
                 path := if path = [] then "/" else path.asString }
    else
      match rest with
      | '/' :: '/' :: r =>
        let authority := r.takeWhile (fun c => ¬(c = '/' ∨ c = '?' ∨ c = '#'))
        let hostname := (afterLastAt authority).takeWhile (fun c => c ≠ ':')
        let afterAuth := r.drop authority.length
        some { scheme := scheme,
               host := (hostname.map jsLower).asString,
               path := (afterAuth.takeWhile (fun c => ¬(c = '?' ∨ c = '#'))).asString }
      | _ =>
        some { scheme := scheme, host := "",
               path := (rest.takeWhile (fun c => ¬(c = '?' ∨ c = '#'))).asString }

/-- `validateLinkedInProfileUrl` (`background.js` lines 558-567): accept only
absolute URLs with host `www.linkedin.com` and a path starting `/in/`; the
returned canonical form hard-codes the `https` scheme. -/
def validateLinkedInProfileUrl (raw : String) : Option String :=
  match parseURL raw with
  | none => none
  | some url =>
    if url.host ≠ "www.linkedin.com" then none
    else if ¬ strStartsWith url.path "/in/" then none
    else some ("https://www.linkedin.com" ++ url.path)

/-- `extractProfileSlugFromUrl` (`background.js` lines 574-587). -/
def extractProfileSlugFromUrl (url : String) : String :=
  match parseURL url with
  | none => ""
  | some parsed =>
    let parts := ((splitOnChar '/' parsed.path.toList).map List.asString).filter (fun s => s ≠ "")
    match parts with
    | p0 :: p1 :: _ =>
      if p0 == "in" && p1 != "" then (slugTransform p1.toList).asString else ""
    | _ => ""

/-- `buildDesiredPdfFilename` (`background.js` lines 569-572). -/
def buildDesiredPdfFilename (profileUrl : String) : String :=
  let slug := extractProfileSlugFromUrl profileUrl
  (if slug = "" then "linkedin-profile" else slug) ++ ".pdf"

/-- `fileNameFromPath` (`background.js` lines 599-603): the part of a path
after the last `/` or `\`. -/
def fileNameFromPath (path : String) : String :=
  if path = "" then ""
  else ((path.toList.reverse.takeWhile (fun c => ¬(c = '/' ∨ c = '\\'))).reverse).asString

/-- A `chrome.downloads` download item as observed by `background.js`
(fields it reads); `""` models an absent field. -/
structure DownloadItem where
  id : Nat
  state : String
  startTime : String
  filename : String
  mime : String
  finalUrl : String
  url : String
  deriving Repr, DecidableEq

/-- `looksLikePdf` (`background.js` lines 610-615). -/
def looksLikePdf (item : DownloadItem) : Bool :=
  let filename := strLower item.filename
  let mime := strLower item.mime
  let finalUrl := strLower (if item.finalUrl ≠ "" then item.finalUrl else item.url)
  strEndsWith filename ".pdf" || strIncludes mime "pdf" || strIncludes finalUrl ".pdf"

/-- The result object built by `toDownloadResult` (`background.js`
lines 617-623). -/
structure DownloadResult where
  downloadId : Nat
  filename : String
  state : String
  deriving Repr, DecidableEq

/-- `toDownloadResult` (`background.js` lines 617-623). -/
def toDownloadResult (item : DownloadItem) : DownloadResult :=
  { downloadId := item.id,
    filename := fileNameFromPath item.filename,
    state := if item.state = "" then "complete" else item.state }

/-- Error message from `background.js` line 435. -/
def interruptedError : String := "PDF download was interrupted by the browser."

/-- Error message from `background.js` lines 462-463. -/
def startedNotCompletedError : String :=
  "PDF download started but did not complete in time. Check Chrome downloads for pending confirmation."

/-- Error message from `background.js` line 473. -/
def noPdfDetectedError : String := "No PDF download detected after clicking Save to PDF."

/-- `isAfterIssuedAt` (`background.js` lines 414-418): a falsy
(absent/empty) `startTime` yields a parsed value of `0`. -/
def isAfterIssuedAt (pd : String → Option Int) (issuedAtMs : Int)
    (item : DownloadItem) : Bool :=
  if item.startTime = "" then decide ((0 : Int) ≥ issuedAtMs - 1000)
  else
    match pd item.startTime with
    | none => false
    | some startMs => decide (startMs ≥ issuedAtMs - 1000)

/-- A `chrome.downloads.onChanged` delta as read by the tracker:
`delta.id` and `delta.state?.current` (`none` models an absent `state`). -/
structure DownloadDelta where
  id : Nat
  stateCurrent : Option String
  deriving Repr, DecidableEq

/-- The four ways a tracker session can be prodded
(`createPdfDownloadTracker`, `background.js` lines 388-489).  Each
`lookup` argument is the value the corresponding handler's
`getDownloadById(trackedId)` call returns at that moment (the download
subsystem is external state, so it enters the model as event data). -/
inductive TrackerEvent
  | created (item : DownloadItem)
  | changed (delta : DownloadDelta) (lookup : Option DownloadItem)
  | poll (lookup : Option DownloadItem)
  | timer (lookup : Option DownloadItem)
  deriving Repr, DecidableEq

/-- The mutable state captured by the `createPdfDownloadTracker` closure.
`settled` records the first promise settlement (`Except.error` = reject,
`Except.ok` = resolve); `settleCount` counts resolve/reject invocations and
`cleanupCount` counts executions of the `cleanup` body reached through
`finish`. -/
structure TrackerState where
  isClosed : Bool
  trackedId : Option Nat
  settled : Option (Except String DownloadResult)
  settleCount : Nat
  cleanupCount : Nat
  deriving Repr

/-- Tracker state right after `createPdfDownloadTracker` registers its
listeners. -/
def initTrackerState : TrackerState :=
  { isClosed := false, trackedId := none, settled := none,
    settleCount := 0, cleanupCount := 0 }

/-- `finish` (`background.js` lines 403-412): idempotent via `isClosed`;
a real finish runs `cleanup()` once and settles the promise once. -/
def trackerFinish (st : TrackerState) (out : Except String DownloadResult) : TrackerState :=
  if st.isClosed then st
  else
    { st with
      isClosed := true
      settled := some out
      settleCount := st.settleCount + 1
      cleanupCount := st.cleanupCount + 1 }

/-- One tracker handler invocation (`onCreated` lines 420-431, `onChanged`
lines 433-447, `tryResolveFromSearch` lines 449-455, the deadline timer
lines 457-474).  `onCreated`'s fire-and-forget `tryResolveFromSearch()`
call is a separate `poll` event, matching its deferred execution. -/
def trackerStep (pd : String → Option Int) (issuedAtMs : Int)
    (fallbackFilename : String) (st : TrackerState) : TrackerEvent → TrackerState
  | .created item =>
    if ¬ isAfterIssuedAt pd issuedAtMs item then st
    else if ¬ looksLikePdf item then st
    else
      let st' := { st with trackedId := some item.id }
      if item.state = "complete" then trackerFinish st' (.ok (toDownloadResult item))
      else st'
  | .changed delta lookup =>
    match st.trackedId with
    | none => st
    | some tid =>
      if delta.id ≠ tid then st
      else if delta.stateCurrent = some "interrupted" then
        trackerFinish st (.error interruptedError)
      else if delta.stateCurrent = some "complete" then
        match lookup with
        | some item => trackerFinish st (.ok (toDownloadResult item))
        | none => trackerFinish st
            (.ok { downloadId := tid, filename := fallbackFilename, state := "complete" })
      else st
  | .poll lookup =>
    match st.trackedId with
    | none => st
    | some _ =>
      if st.isClosed then st
      else
        match lookup with
        | some item =>
          if item.state = "complete" then trackerFinish st (.ok (toDownloadResult item))
          else st
        | none => st
  | .timer lookup =>
    match st.trackedId with
    | some _ =>
      match lookup with
      | some item =>
        if item.state = "in_progress" then trackerFinish st (.error startedNotCompletedError)
        else if item.state = "complete" then trackerFinish st (.ok (toDownloadResult item))
        else trackerFinish st (.error noPdfDetectedError)
      | none => trackerFinish st (.error noPdfDetectedError)
    | none => trackerFinish st (.error noPdfDetectedError)

/-- A whole delivery history folded over the tracker session. -/
def runTracker (pd : String → Option Int) (issuedAtMs : Int)
    (fallbackFilename : String) (evs : List TrackerEvent) : TrackerState :=
  evs.foldl (trackerStep pd issuedAtMs fallbackFilename) initTrackerState

/-- The single process-wide pending filename token
(`background.js` lines 10, 625-631). -/
structure PendingOverride where
  desiredFilename : String
  issuedAtMs : Int
  deriving Repr, DecidableEq

/-- Outcome of the determine-filename hook: `default` models calling
`suggest()` with no argument (host default naming); `suggestion` models
`suggest({filename, conflictAction})`. -/
inductive FilenameSuggestion
  | default
  | suggestion (filename : String) (conflictAction : String)
  deriving Repr, DecidableEq

/-- The time the hook correlates against: `downloadItem?.startTime ?
Date.parse(downloadItem.startTime) : Date.now()` (`background.js`
line 640) — a falsy `startTime` is replaced by the current time, a
present one is parsed (`none` models `NaN`). -/
def effectiveStartMs (pd : String → Option Int) (nowMs : Int)
    (item : DownloadItem) : Option Int :=
  if item.startTime = "" then some nowMs else pd item.startTime

/-- `handleDeterminingFilename` (`background.js` lines 633-657).  `nowMs`
is the `Date.now()` value substituted when the item has a falsy
`startTime`.  The JS `try`/`catch` makes the hook total: every path calls
`suggest` exactly once, which this total function reflects. -/
def handleDeterminingFilename (pd : String → Option Int) (nowMs : Int)
    (pendingFilenameOverride : Option PendingOverride)
    (item : DownloadItem) : FilenameSuggestion :=
  match pendingFilenameOverride with
  | none => .default
  | some pending =>
    if ¬ looksLikePdf item then .default
    else
      match effectiveStartMs pd nowMs item with
      | none => .default
      | some startMs =>
        if |startMs - pending.issuedAtMs| > FILENAME_CORRELATION_WINDOW_MS then .default
        else
          .suggestion
            (if pending.desiredFilename = "" then DEFAULT_PDF_FILENAME
             else pending.desiredFilename)
            "uniquify"

/-- Terminal outcome of `pollForTruthy`: `succeeded` models `return true`,
`raised e` the `throw lastError`, `timedOut` the generic
"Timed out waiting for expected page state." error. -/
inductive PollOutcome (ε : Type)
  | succeeded
  | raised (e : ε)
  | timedOut
  deriving Repr, DecidableEq

/-- The `while (Date.now() < deadline)` loop of `pollForTruthy`
(`background.js` lines 532-540).  `check k` is the k-th `checkFn()` call
(`Except.error` models a thrown exception); the fuel argument is the
number of loop iterations the deadline admits. -/
def pollLoop {ε : Type} (check : Nat → Except ε Bool) (k : Nat)
    (lastError : Option ε) : Nat → PollOutcome ε
  | 0 =>
    match lastError with
    | some e => .raised e
    | none => .timedOut
  | fuel + 1 =>
    match check k with
    | .ok true => .succeeded
    | .ok false => pollLoop check (k + 1) lastError fuel
    | .error e => pollLoop check (k + 1) (some e) fuel

/-- Number of loop entries: iteration n starts at `t0 + n*intervalMs` and
runs while that is `< t0 + timeoutMs` (each iteration sleeps exactly
`intervalMs`; requires `intervalMs > 0` to model advancing time). -/
def numPollIterations (timeoutMs intervalMs : Nat) : Nat :=
  (timeoutMs + intervalMs - 1) / intervalMs

/-- `pollForTruthy` (`background.js` lines 526-543) with its `?? 5000` /
`?? 100` option defaults. -/
def pollForTruthy {ε : Type} (check : Nat → Except ε Bool)
    (timeoutMs? intervalMs? : Option Nat) : PollOutcome ε :=
  pollLoop check 0 none (numPollIterations (timeoutMs?.getD 5000) (intervalMs?.getD 100))

/-- The error, if any, of the last throwing attempt among
`check k, …, check (k+fuel-1)` (starting from `acc`). -/
def lastThrown {ε : Type} (check : Nat → Except ε Bool) (k : Nat)
    (acc : Option ε) : Nat → Option ε
  | 0 => acc
  | fuel + 1 =>
    lastThrown check (k + 1)
      (match check k with
       | .error e => some e
       | _ => acc) fuel

/-- `sanitizeUrlList` (`background.js` lines 553-556): trim each entry and
drop the empty ones. -/
def sanitizeUrlList (rawUrls : List String) : List String :=
  (rawUrls.map strTrim).filter (fun s => s ≠ "")

/-- The payload `runResumeDownload` resolves with, as consumed by the batch
loop (`item.filename`, `item.downloadId`, `item.state`); `none` downloadId
models `undefined ?? null`. -/
structure RunItem where
  filename : String
  downloadId : Option Nat
  state : String
  deriving Repr, DecidableEq

/-- A per-entry outcome row as built at `background.js` lines 63-70 /
74-79. -/
inductive RowResult
  | success (index : Nat) (url : String) (filename : String)
      (downloadId : Option Nat) (state : String)
  | failure (index : Nat) (url : String) (error : String)
  deriving Repr, DecidableEq

/-- The `ok` field of a row (`row.ok`). -/
def rowOk : RowResult → Bool
  | .success _ _ _ _ _ => true
  | .failure _ _ _ => false

/-- The `index` field of a row. -/
def rowIndex : RowResult → Nat
  | .success index _ _ _ _ => index
  | .failure index _ _ => index

/-- The `url` field of a row. -/
def rowUrl : RowResult → String
  | .success _ url _ _ _ => url
  | .failure _ url _ => url

/-- Events emitted through `progressCallback` (`background.js` lines 54-59,
72, 81). -/
inductive BatchEvent
  | progress (current total : Nat) (url : String)
  | itemResult (row : RowResult)
  deriving Repr, DecidableEq

/-- One iteration's row construction (`background.js` lines 61-82):
`runOne index url` is the outcome of the awaited `runResumeDownload(url)`
call for that entry (`Except.error` models a thrown error, whose string is
the caught error's message with the `|| "Resume download failed"`
fallback applied for a falsy message). -/
def batchRow (runOne : Nat → String → Except String RunItem)
    (index : Nat) (url : String) : RowResult :=
  match runOne index url with
  | .ok item =>
    .success index url item.filename item.downloadId
      (if item.state = "" then "complete" else item.state)
  | .error e => .failure index url (if e = "" then "Resume download failed" else e)

/-- The `for` loop of `runBatchResumeDownload` (`background.js`
lines 52-83), returning the accumulated `results` and the emitted progress
events in order. -/
def batchLoop (runOne : Nat → String → Except String RunItem) (total : Nat) :
    Nat → List String → List RowResult × List BatchEvent
  | _, [] => ([], [])
  | index, url :: rest =>
    let row := batchRow runOne index url
    let (rows, events) := batchLoop runOne total (index + 1) rest
    (row :: rows, .progress (index + 1) total url :: .itemResult row :: events)

/-- The aggregate returned at `background.js` lines 90-95. -/
structure BatchSummary where
  total : Nat
  successCount : Nat
  failureCount : Nat
  results : List RowResult
  deriving Repr, DecidableEq

/-- `runBatchResumeDownload` (`background.js` lines 39-96).
`activeBatchRun` is the module-level flag on entry; the second component of
the returned pair is the flag's value once the call returns or throws (a
guard failure throws before touching the flag; a run that enters the loop
sets it and the `finally` clears it). -/
def runBatchResumeDownload (runOne : Nat → String → Except String RunItem)
    (activeBatchRun : Bool) (rawUrls : List String) :
    Except String (BatchSummary × List BatchEvent) × Bool :=
  let urls := sanitizeUrlList rawUrls
  if urls = [] then
    (.error "No URLs provided. Upload a file with one LinkedIn profile URL per line.",
     activeBatchRun)
  else if activeBatchRun then
    (.error "Another batch run is already in progress. Wait for it to finish.",
     activeBatchRun)
  else
    let (results, events) := batchLoop runOne urls.length 0 urls
    let successCount := (results.filter rowOk).length
    (.ok ({ total := urls.length, successCount := successCount,
            failureCount := results.length - successCount, results := results },
          events),
     false)

/-- How far the opening of `runResumeDownload` gets. -/
inductive SingleRunStart
  | invalidUrl (error : String)
  | noActiveTab (error : String)
  | proceeds (profileUrl : String) (desiredFilename : String)
  deriving Repr, DecidableEq

/-- The start of `runResumeDownload` (`background.js` lines 134-147): URL
validation, desired-filename derivation, active-tab lookup.  The function
consults no mutual-exclusion state; `_activeBatchRun` is passed only to
exhibit that the flag is ignored on this path, exactly as in the source. -/
def runResumeDownloadStart (_activeBatchRun : Bool) (rawUrl : String)
    (activeTabId : Option Nat) : SingleRunStart :=
  match validateLinkedInProfileUrl rawUrl with
  | none => .invalidUrl "Invalid LinkedIn profile URL. Use https://www.linkedin.com/in/..."
  | some profileUrl =>
    match activeTabId with
    | none => .noActiveTab "No active tab found."
    | some _ => .proceeds profileUrl (buildDesiredPdfFilename profileUrl)

/-- A bounding client rect (`getBoundingClientRect`), coordinates as exact
rationals standing for JS numbers. -/
structure BBox where
  left : ℚ
  top : ℚ
  width : ℚ
  height : ℚ
  deriving Repr, DecidableEq

/-- The data the candidate-filter in `findClickablePointByText` reads off
the nearest clickable ancestor: its rect (`none` models a falsy rect) and
its computed-style visibility signals. -/
structure ClickTargetInfo where
  rect : Option BBox
  visibilityHidden : Bool
  displayNone : Bool
  opacityZero : Bool
  deriving Repr, DecidableEq

/-- One element returned by the page script's `querySelectorAll`, abstracted
to what the script reads: its raw text and the outcome of the
walk-up-to-clickable-ancestor loop (`none` when the walk runs off the top
of the tree). -/
structure PageCandidate where
  text : String
  clickable : Option ClickTargetInfo
  deriving Repr, DecidableEq

/-- The page script's text normalisation:
`.replace(/\s+/g, ' ').trim().toLowerCase()`. -/
def normalizeText (s : String) : String :=
  strLower (strTrim ((collapseRuns (fun c => c.isWhitespace) ' ' s.toList).asString))

/-- An entry of the script's `matches` array: visual centre plus the `top`
used as the sort key. -/
structure MatchPoint where
  x : ℚ
  y : ℚ
  top : ℚ
  deriving Repr, DecidableEq

/-- A returned click point. -/
structure Point where
  x : ℚ
  y : ℚ
  deriving Repr, DecidableEq

/-- The per-node filter of `findClickablePointByText` (`background.js`
lines 351-378): text match, clickable-ancestor resolution, size filter
(width ≥ 20, height ≥ 14), viewport overlap, computed-style visibility. -/
def candidateMatch (vwWidth vwHeight : ℚ) (wanted : String)
    (node : PageCandidate) : Option MatchPoint :=
  if normalizeText node.text ≠ wanted then none
  else
    match node.clickable with
    | none => none
    | some ct =>
      match ct.rect with
      | none => none
      | some r =>
        if r.width < 20 ∨ r.height < 14 then none
        else if r.top + r.height ≤ 0 ∨ r.left + r.width ≤ 0 ∨ r.top ≥ vwHeight ∨ r.left ≥ vwWidth then none
        else if ct.visibilityHidden ∨ ct.displayNone ∨ ct.opacityZero then none
        else some { x := r.left + r.width / 2, y := r.top + r.height / 2, top := r.top }

/-- `matches.sort((a, b) => a.top - b.top)` followed by `matches[0]`:
JS sort is stable, so the head of the sorted array is the first element
attaining the minimal `top`. -/
def pickTopmost : List MatchPoint → Option MatchPoint
  | [] => none
  | m :: rest =>
    some
      (match pickTopmost rest with
       | none => m
       | some b => if m.top ≤ b.top then m else b)

/-- The qualifying matches, in document order. -/
def qualifyingMatches (vwWidth vwHeight : ℚ) (label : String)
    (nodes : List PageCandidate) : List MatchPoint :=
  nodes.filterMap (candidateMatch vwWidth vwHeight (strLower label))

/-- `findClickablePointByText` (`background.js` lines 342-386) as a function
of the page state.  The script's `wanted` literal is the escaped label
lower-cased (`escapeForJs` round-trips to the original label at runtime),
not whitespace-normalised. -/
def findClickablePointByText (vwWidth vwHeight : ℚ) (label : String)
    (nodes : List PageCandidate) : Option Point :=
  match pickTopmost (qualifyingMatches vwWidth vwHeight label nodes) with
  | none => none
  | some m => some { x := m.x, y := m.y }

/-- The at-most-once bookkeeping invariant of a tracker session. -/
def trackerInv (st : TrackerState) : Prop :=
  st.settleCount ≤ 1 ∧ st.cleanupCount = st.settleCount ∧
  (st.isClosed = true ↔ st.settleCount = 1) ∧
  (st.settled.isSome = true ↔ st.settleCount = 1)

theorem trackerInv_init : trackerInv initTrackerState := by
  simp [trackerInv, initTrackerState]

theorem trackerInv_finish (st : TrackerState) (out : Except String DownloadResult)
    (h : trackerInv st) : trackerInv (trackerFinish st out) := by
  obtain ⟨h1, h2, h3, h4⟩ := h
  unfold trackerFinish
  by_cases hc : st.isClosed = true
  · simp only [hc, if_true]
    exact ⟨h1, h2, h3, h4⟩
  · have h0 : st.settleCount = 0 := by
      rcases Nat.lt_or_ge st.settleCount 1 with h | h
      · omega
      · exact absurd (h3.mpr (by omega)) hc
    simp [hc, trackerInv, h0, h2]

theorem trackerInv_step (pd : String → Option Int) (issuedAtMs : Int) (fb : String)
    (st : TrackerState) (ev : TrackerEvent) (h : trackerInv st) :
    trackerInv (trackerStep pd issuedAtMs fb st ev) := by
  cases ev <;> simp only [trackerStep] <;>
    (repeat' split) <;>
    first
      | exact h
      | exact trackerInv_finish _ _ h

theorem trackerInv_foldl (pd : String → Option Int) (issuedAtMs : Int) (fb : String)
    (evs : List TrackerEvent) (st : TrackerState) (h : trackerInv st) :
    trackerInv (evs.foldl (trackerStep pd issuedAtMs fb) st) := by
  induction evs generalizing st with
  | nil => exact h
  | cons e rest ih => exact ih _ (trackerInv_step pd issuedAtMs fb st e h)

theorem trackerFinish_isClosed_always (st : TrackerState) (out : Except String DownloadResult) :
    (trackerFinish st out).isClosed = true := by
  unfold trackerFinish
  split
  · assumption
  · rfl

theorem trackerStep_isClosed_mono (pd : String → Option Int) (issuedAtMs : Int) (fb : String)
    (st : TrackerState) (ev : TrackerEvent) (h : st.isClosed = true) :
    (trackerStep pd issuedAtMs fb st ev).isClosed = true := by
  cases ev <;> simp only [trackerStep] <;>
    (repeat' split) <;>
    first
      | exact h
      | exact trackerFinish_isClosed_always _ _

theorem trackerStep_timer_isClosed (pd : String → Option Int) (issuedAtMs : Int) (fb : String)
    (st : TrackerState) (lookup : Option DownloadItem) :
    (trackerStep pd issuedAtMs fb st (.timer lookup)).isClosed = true := by
  simp only [trackerStep]
  (repeat' split) <;> exact trackerFinish_isClosed_always _ _

theorem trackerFoldl_isClosed_mono (pd : String → Option Int) (issuedAtMs : Int) (fb : String)
    (evs : List TrackerEvent) (st : TrackerState) (h : st.isClosed = true) :
    (evs.foldl (trackerStep pd issuedAtMs fb) st).isClosed = true := by
  induction evs generalizing st with
  | nil => exact h
  | cons e rest ih => exact ih _ (trackerStep_isClosed_mono pd issuedAtMs fb st e h)

theorem trackerFoldl_timer_closes (pd : String → Option Int) (issuedAtMs : Int) (fb : String)
    (evs : List TrackerEvent) (st : TrackerState) (lookup : Option DownloadItem)
    (h : TrackerEvent.timer lookup ∈ evs) :
    (evs.foldl (trackerStep pd issuedAtMs fb) st).isClosed = true := by
  induction evs generalizing st with
  | nil => cases h
  | cons e rest ih =>
    rcases List.mem_cons.mp h with he | he
    · subst he
      exact trackerFoldl_isClosed_mono pd issuedAtMs fb rest _
        (trackerStep_timer_isClosed pd issuedAtMs fb st lookup)
    · exact ih _ he

/-- C2: for every delivery history over a tracker session — regardless of
how often and in which order the created listener, the changed listener,
the search poll and the deadline timer try to finish it — the promise is
settled at most once, the cleanup body runs exactly as often as the
session settles (hence exactly once whenever anything finished it, and in
particular exactly once in any history where the deadline timer fired). -/
theorem tracker_single_settlement (pd : String → Option Int) (issuedAtMs : Int)
    (fallbackFilename : String) (evs : List TrackerEvent) :
    (runTracker pd issuedAtMs fallbackFilename evs).settleCount ≤ 1 ∧
    (runTracker pd issuedAtMs fallbackFilename evs).cleanupCount =
      (runTracker pd issuedAtMs fallbackFilename evs).settleCount ∧
    ((runTracker pd issuedAtMs fallbackFilename evs).settled.isSome = true ↔
      (runTracker pd issuedAtMs fallbackFilename evs).settleCount = 1) ∧
    ((∃ lookup, TrackerEvent.timer lookup ∈ evs) →
      (runTracker pd issuedAtMs fallbackFilename evs).settleCount = 1 ∧
      (runTracker pd issuedAtMs fallbackFilename evs).cleanupCount = 1) := by
  simp only [runTracker]
  have hinv := trackerInv_foldl pd issuedAtMs fallbackFilename evs initTrackerState trackerInv_init
  obtain ⟨h1, h2, h3, h4⟩ := hinv
  refine ⟨h1, h2, h4, ?_⟩
  rintro ⟨lookup, hmem⟩
  have hc := trackerFoldl_timer_closes pd issuedAtMs fallbackFilename evs initTrackerState lookup hmem
  have := h3.mp hc
  exact ⟨this, by omega⟩
theorem trackerFinish_settled (st : TrackerState) (out : Except String DownloadResult)
    (h : st.isClosed = false) : (trackerFinish st out).settled = some out := by
  simp [trackerFinish, h]

/-- C10: when the deadline timer fires on an open tracker session, the
session does not always fail: with a tracked item whose looked-up state is
already "complete" it resolves successfully with that item's result; the
"started but did not complete" error is produced exactly when the tracked
item is still in progress; and in every remaining case (no tracked item,
lookup returned nothing, or any other state) it rejects with the
"no PDF download detected" error. -/
theorem trackerTimer_spec (pd : String → Option Int) (issuedAtMs : Int) (fb : String)
    (st : TrackerState) (lookup : Option DownloadItem)
    (hopen : st.isClosed = false) :
    (∀ item, st.trackedId ≠ none → lookup = some item → item.state = "complete" →
       (trackerStep pd issuedAtMs fb st (.timer lookup)).settled =
         some (.ok (toDownloadResult item))) ∧
    (∀ item, st.trackedId ≠ none → lookup = some item → item.state = "in_progress" →
       (trackerStep pd issuedAtMs fb st (.timer lookup)).settled =
         some (.error startedNotCompletedError)) ∧
    ((st.trackedId = none ∨ lookup = none ∨
        (∃ item, lookup = some item ∧ item.state ≠ "complete" ∧ item.state ≠ "in_progress")) →
       (trackerStep pd issuedAtMs fb st (.timer lookup)).settled =
         some (.error noPdfDetectedError)) := by
  refine ⟨?_, ?_, ?_⟩
  · intro item htid hlk hst
    rcases hti : st.trackedId with _ | tid
    · exact absurd hti htid
    · subst hlk
      simp only [trackerStep, hti, hst]
      norm_num
      exact trackerFinish_settled st _ hopen
  · intro item htid hlk hst
    rcases hti : st.trackedId with _ | tid
    · exact absurd hti htid
    · subst hlk
      simp only [trackerStep, hti, hst]
      norm_num
      exact trackerFinish_settled st _ hopen
  · rintro (hti | hlk | ⟨item, hlk, hnc, hnp⟩)
    · simp only [trackerStep, hti]
      exact trackerFinish_settled st _ hopen
    · subst hlk
      rcases hti : st.trackedId with _ | tid <;> simp only [trackerStep, hti] <;>
        exact trackerFinish_settled st _ hopen
    · subst hlk
      rcases hti : st.trackedId with _ | tid
      · simp only [trackerStep, hti]
        exact trackerFinish_settled st _ hopen
      · simp only [trackerStep, hti, if_neg hnp, if_neg hnc]
        exact trackerFinish_settled st _ hopen

def wPd : String → Option Int :=
  fun s => if s = "2024-01-01T00:00:02.000Z" then some 2000 else none

def wItemInProgress : DownloadItem :=
  { id := 7, state := "in_progress", startTime := "2024-01-01T00:00:02.000Z",
    filename := "dir/jane.pdf", mime := "application/pdf", finalUrl := "", url := "" }

def wItemComplete : DownloadItem := { wItemInProgress with state := "complete" }

def wOpenTracked : TrackerState := { initTrackerState with trackedId := some 7 }

/-- Witness for the C10 theorem at a concrete open session whose tracked
item is already complete when the timer fires. -/
theorem trackerTimer_spec_witness :
    (trackerStep wPd 1500 "fb.pdf" wOpenTracked (.timer (some wItemComplete))).settled =
      some (.ok (toDownloadResult wItemComplete)) :=
  (trackerTimer_spec wPd 1500 "fb.pdf" wOpenTracked (some wItemComplete) rfl).1
    wItemComplete (by decide) rfl rfl

/-- The acceptance condition C3 states for a "download created" event: the
start time parses and is not earlier than `issuedAt - 1000`, and the item
looks like a PDF. -/
def createdAccepted (pd : String → Option Int) (issuedAtMs : Int) (item : DownloadItem) : Prop :=
  (item.startTime ≠ "" ∧ ∃ t, pd item.startTime = some t ∧ issuedAtMs - 1000 ≤ t) ∧
  looksLikePdf item = true

theorem isAfterIssuedAt_iff (pd : String → Option Int) (issuedAtMs : Int)
    (item : DownloadItem) (h : 1000 < issuedAtMs) :
    isAfterIssuedAt pd issuedAtMs item = true ↔
      item.startTime ≠ "" ∧ ∃ t, pd item.startTime = some t ∧ issuedAtMs - 1000 ≤ t := by
  unfold isAfterIssuedAt
  by_cases hs : item.startTime = ""
  · simp only [hs, if_true, decide_eq_true_iff, ne_eq, not_true_eq_false, false_and]
    constructor
    · intro hc
      omega
    · exact False.elim
  · cases hp : pd item.startTime with
    | none => simp [hs, hp]
    | some t => simp [hs, hp, decide_eq_true_iff]

/-- C3: a "download created" event delivered to a tracker session is
accepted exactly when its parsed start time is at least `issuedAt - 1000`
and the item indicates a PDF; an accepted event's id becomes the tracked
download id, and a non-accepted event leaves the session state (in
particular the tracked item) entirely unchanged.  The hypothesis
`1000 < issuedAtMs` reflects that the source always issues trackers with a
wall-clock `Date.now()` timestamp. -/
theorem trackerOnCreated_spec (pd : String → Option Int) (issuedAtMs : Int) (fb : String)
    (st : TrackerState) (item : DownloadItem) (h : 1000 < issuedAtMs) :
    (createdAccepted pd issuedAtMs item →
       (trackerStep pd issuedAtMs fb st (.created item)).trackedId = some item.id) ∧
    (¬ createdAccepted pd issuedAtMs item →
       trackerStep pd issuedAtMs fb st (.created item) = st) := by
  have hiff := isAfterIssuedAt_iff pd issuedAtMs item h
  constructor
  · rintro ⟨hstart, hpdf⟩
    have ha : isAfterIssuedAt pd issuedAtMs item = true := hiff.mpr hstart
    simp only [trackerStep, ha, hpdf, not_true_eq_false, if_false]
    split
    · unfold trackerFinish
      split <;> rfl
    · rfl
  · intro hna
    by_cases ha : isAfterIssuedAt pd issuedAtMs item = true
    · have hpdf : ¬ looksLikePdf item = true := fun hp => hna ⟨hiff.mp ha, hp⟩
      simp [trackerStep, ha, hpdf]
    · simp [trackerStep, ha]

/-- Witness for the C3 theorem: a PDF-looking item created 500 ms after
issuance is accepted and becomes the tracked item. -/
theorem trackerOnCreated_spec_witness :
    (trackerStep wPd 1500 "fb.pdf" initTrackerState (.created wItemInProgress)).trackedId =
      some wItemInProgress.id :=
  (trackerOnCreated_spec wPd 1500 "fb.pdf" initTrackerState wItemInProgress (by decide)).1
    ⟨⟨by decide, ⟨2000, rfl, by decide⟩⟩, by decide⟩

theorem pollLoop_characterize {ε : Type} (check : Nat → Except ε Bool) :
    ∀ (fuel k : Nat) (acc : Option ε),
      (pollLoop check k acc fuel = .succeeded ↔ ∃ j, j < fuel ∧ check (k + j) = .ok true) ∧
      ((∀ j, j < fuel → check (k + j) ≠ .ok true) →
        pollLoop check k acc fuel =
          match lastThrown check k acc fuel with
          | some e => .raised e
          | none => .timedOut) := by
  intro fuel
  induction fuel with
  | zero =>
    intro k acc
    constructor
    · constructor
      · intro h
        cases hacc : acc <;> simp [pollLoop, hacc] at h
      · rintro ⟨j, hj, _⟩
        omega
    · intro _
      rfl
  | succ n ih =>
    intro k acc
    constructor
    · constructor
      · intro h
        simp only [pollLoop] at h
        split at h
        · next heq => exact ⟨0, by omega, by simpa using heq⟩
        · next heq =>
          obtain ⟨j, hj, hcj⟩ := ((ih (k + 1) acc).1).mp h
          exact ⟨j + 1, by omega, by simpa [Nat.add_assoc, Nat.add_comm 1 j] using hcj⟩
        · next e heq =>
          obtain ⟨j, hj, hcj⟩ := ((ih (k + 1) (some e)).1).mp h
          exact ⟨j + 1, by omega, by simpa [Nat.add_assoc, Nat.add_comm 1 j] using hcj⟩
      · rintro ⟨j, hj, hcj⟩
        simp only [pollLoop]
        cases hc : check k with
        | ok b =>
          cases b with
          | true => rfl
          | false =>
            have hj0 : j ≠ 0 := by
              intro h0
              rw [h0, Nat.add_zero] at hcj
              rw [hc] at hcj
              exact absurd hcj (by simp)
            exact ((ih (k + 1) acc).1).mpr
              ⟨j - 1, by omega, by rw [show k + 1 + (j - 1) = k + j by omega]; exact hcj⟩
        | error e =>
          have hj0 : j ≠ 0 := by
            intro h0
            rw [h0, Nat.add_zero] at hcj
            rw [hc] at hcj
            exact absurd hcj (by simp)
          exact ((ih (k + 1) (some e)).1).mpr
            ⟨j - 1, by omega, by rw [show k + 1 + (j - 1) = k + j by omega]; exact hcj⟩
    · intro hnone
      simp only [pollLoop, lastThrown]
      cases hc : check k with
      | ok b =>
        cases b with
        | true => exact absurd (by simpa using hc) (hnone 0 (by omega))
        | false =>
          have := (ih (k + 1) acc).2 (fun j hj => by
            have := hnone (j + 1) (by omega)
            rwa [show k + (j + 1) = k + 1 + j by omega] at this)
          exact this
      | error e =>
        have := (ih (k + 1) (some e)).2 (fun j hj => by
          have := hnone (j + 1) (by omega)
          rwa [show k + (j + 1) = k + 1 + j by omega] at this)
        exact this

/-- C6: `pollForTruthy` returns success as soon as any attempt before the
deadline yields a truthy value; exceptions thrown by the predicate are
swallowed and polling continues; and when no attempt within the deadline
succeeds it raises the most recent exception the predicate threw when one
exists, and only otherwise the generic timeout error. -/
theorem pollForTruthy_spec (ε : Type) (check : Nat → Except ε Bool)
    (timeoutMs intervalMs : Nat) :
    (pollForTruthy check (some timeoutMs) (some intervalMs) = .succeeded ↔
      ∃ j, j < numPollIterations timeoutMs intervalMs ∧ check j = .ok true) ∧
    ((∀ j, j < numPollIterations timeoutMs intervalMs → check j ≠ .ok true) →
      pollForTruthy check (some timeoutMs) (some intervalMs) =
        match lastThrown check 0 none (numPollIterations timeoutMs intervalMs) with
        | some e => .raised e
        | none => .timedOut) := by
  have h := pollLoop_characterize check (numPollIterations timeoutMs intervalMs) 0 none
  simpa [pollForTruthy] using h

/-- Witness for the C6 theorem: with a 450 ms deadline and 100 ms interval
(5 attempts), a predicate that throws on its first two attempts and then
keeps returning a falsy value times out by re-raising the second thrown
error rather than the generic timeout. -/
theorem pollForTruthy_spec_witness :
    pollForTruthy
        (fun k => if k = 0 then .error "boom0" else if k = 1 then .error "boom1"
                  else (.ok false : Except String Bool))
        (some 450) (some 100) = .raised "boom1" :=
  Eq.trans
    ((pollForTruthy_spec String
        (fun k => if k = 0 then .error "boom0" else if k = 1 then .error "boom1"
                  else (.ok false : Except String Bool)) 450 100).2
      (by
        intro j hj
        have hj5 : j < 5 := by simpa [numPollIterations] using hj
        interval_cases j <;> simp))
    rfl

theorem pickTopmost_eq_none_iff (l : List MatchPoint) : pickTopmost l = none ↔ l = [] := by
  cases l with
  | nil => simp [pickTopmost]
  | cons m rest => simp [pickTopmost]

theorem pickTopmost_min (l : List MatchPoint) (h : l ≠ []) :
    ∃ m, pickTopmost l = some m ∧ m ∈ l ∧ ∀ m2 ∈ l, m.top ≤ m2.top := by
  induction l with
  | nil => exact absurd rfl h
  | cons m rest ih =>
    cases hp : pickTopmost rest with
    | none =>
      have hre : rest = [] := (pickTopmost_eq_none_iff rest).mp hp
      subst hre
      refine ⟨m, by simp [pickTopmost], by simp, ?_⟩
      intro m2 hm2
      simp at hm2
      subst hm2
      exact le_refl _
    | some b =>
      have hne : rest ≠ [] := by
        intro he
        subst he
        simp [pickTopmost] at hp
      obtain ⟨b2, hb2, hmem, hmin⟩ := ih hne
      rw [hp] at hb2
      injection hb2 with hbb
      subst hbb
      by_cases hle : m.top ≤ b.top
      · refine ⟨m, by simp [pickTopmost, hp, hle], List.mem_cons_self m rest, ?_⟩
        intro m2 hm2
        rcases List.mem_cons.mp hm2 with h2 | h2
        · exact h2 ▸ le_refl _
        · exact le_trans hle (hmin m2 h2)
      · refine ⟨b, by simp [pickTopmost, hp, hle], List.mem_cons_of_mem m hmem, ?_⟩
        intro m2 hm2
        rcases List.mem_cons.mp hm2 with h2 | h2
        · exact h2 ▸ le_of_not_le hle
        · exact hmin m2 h2

/-- C9: among the candidates that survive the text, size, viewport and
visibility filters, the search returns the visual centre of one attaining
the smallest vertical offset (`top`); with no qualifying candidate it
returns `null`. -/
theorem findClickablePointByText_topmost (vwWidth vwHeight : ℚ) (label : String)
    (nodes : List PageCandidate) :
    (qualifyingMatches vwWidth vwHeight label nodes = [] →
       findClickablePointByText vwWidth vwHeight label nodes = none) ∧
    (qualifyingMatches vwWidth vwHeight label nodes ≠ [] →
       ∃ m ∈ qualifyingMatches vwWidth vwHeight label nodes,
         findClickablePointByText vwWidth vwHeight label nodes =
           some { x := m.x, y := m.y } ∧
         ∀ m2 ∈ qualifyingMatches vwWidth vwHeight label nodes, m.top ≤ m2.top) := by
  constructor
  · intro h
    simp [findClickablePointByText, (pickTopmost_eq_none_iff _).mpr h]
  · intro h
    obtain ⟨m, hm, hmem, hmin⟩ := pickTopmost_min _ h
    exact ⟨m, hmem, by simp [findClickablePointByText, hm], hmin⟩

def wNodeLow : PageCandidate :=
  { text := "  More ",
    clickable := some { rect := some { left := 0, top := 50, width := 100, height := 20 },
                        visibilityHidden := false, displayNone := false, opacityZero := false } }

def wNodeHigh : PageCandidate :=
  { text := "More",
    clickable := some { rect := some { left := 10, top := 10, width := 100, height := 20 },
                        visibilityHidden := false, displayNone := false, opacityZero := false } }

/-- Witness for the C9 theorem: two visible same-text candidates; the
existential instance produced by the theorem attains the smaller vertical
offset. -/
theorem findClickablePointByText_topmost_witness :
    ∃ m ∈ qualifyingMatches 1000 800 "More" [wNodeLow, wNodeHigh],
      findClickablePointByText 1000 800 "More" [wNodeLow, wNodeHigh] =
        some { x := m.x, y := m.y } ∧
      ∀ m2 ∈ qualifyingMatches 1000 800 "More" [wNodeLow, wNodeHigh], m.top ≤ m2.top :=
  (findClickablePointByText_topmost 1000 800 "More" [wNodeLow, wNodeHigh]).2
    (by
      have h1 : candidateMatch 1000 800 (strLower "More") wNodeLow =
          some { x := 50, y := 60, top := 50 } := by
        simp only [candidateMatch, wNodeLow]
        rw [if_neg (by decide)]
        norm_num
      simp [qualifyingMatches, List.filterMap, h1])

theorem batchLoop_results (runOne : Nat → String → Except String RunItem) (total : Nat) :
    ∀ (urls : List String) (k : Nat),
      (batchLoop runOne total k urls).1 = urls.mapIdx fun i u => batchRow runOne (k + i) u := by
  intro urls
  induction urls with
  | nil => intro k; simp [batchLoop]
  | cons u rest ih =>
    intro k
    simp only [batchLoop, List.mapIdx_cons, Nat.add_zero, ih (k + 1)]
    simp only [show ∀ i : Nat, k + 1 + i = k + (i + 1) from fun i => by omega]

theorem batchLoop_events (runOne : Nat → String → Except String RunItem) (total : Nat) :
    ∀ (urls : List String) (k : Nat),
      (batchLoop runOne total k urls).2 =
        (urls.mapIdx fun i u =>
          [BatchEvent.progress (k + i + 1) total u,
           BatchEvent.itemResult (batchRow runOne (k + i) u)]).flatten := by
  intro urls
  induction urls with
  | nil => intro k; simp [batchLoop]
  | cons u rest ih =>
    intro k
    simp only [batchLoop, List.mapIdx_cons, Nat.add_zero, ih (k + 1), List.flatten]
    simp only [show ∀ i : Nat, k + 1 + i = k + (i + 1) from fun i => by omega]
    rfl

theorem rowOk_filter_split (l : List RowResult) :
    (l.filter rowOk).length + (l.filter (fun r => !(rowOk r))).length = l.length := by
  induction l with
  | nil => rfl
  | cons r rest ih =>
    cases hr : rowOk r <;> simp [List.filter, hr, ih] <;> omega

theorem runBatch_eq (runOne : Nat → String → Except String RunItem)
    (rawUrls : List String) (h : sanitizeUrlList rawUrls ≠ []) :
    runBatchResumeDownload runOne false rawUrls =
      (.ok
        ({ total := (sanitizeUrlList rawUrls).length,
           successCount :=
             (((batchLoop runOne (sanitizeUrlList rawUrls).length 0
                 (sanitizeUrlList rawUrls)).1).filter rowOk).length,
           failureCount :=
             ((batchLoop runOne (sanitizeUrlList rawUrls).length 0
                 (sanitizeUrlList rawUrls)).1).length -
             (((batchLoop runOne (sanitizeUrlList rawUrls).length 0
                 (sanitizeUrlList rawUrls)).1).filter rowOk).length,
           results :=
             (batchLoop runOne (sanitizeUrlList rawUrls).length 0
               (sanitizeUrlList rawUrls)).1 },
         (batchLoop runOne (sanitizeUrlList rawUrls).length 0 (sanitizeUrlList rawUrls)).2),
       false) := by
  simp only [runBatchResumeDownload, if_neg h]
  rfl

/-- C5: for a non-empty sanitized URL list the batch runner succeeds,
processing entries strictly in input order one at a time: row `i` of the
results is exactly the outcome of running entry `i` (so a failure of one
entry — validation failures included — is recorded as that entry's outcome
and cannot affect any other entry), the event stream is, per entry in
order, a progress event followed by that entry's item-result event, and
the summary carries the success count, the failure count and the ordered
per-item outcomes. -/
theorem runBatch_ordered_spec (runOne : Nat → String → Except String RunItem)
    (rawUrls : List String) (h : sanitizeUrlList rawUrls ≠ []) :
    ∃ summary events,
      runBatchResumeDownload runOne false rawUrls = (.ok (summary, events), false) ∧
      summary.total = (sanitizeUrlList rawUrls).length ∧
      summary.results = (sanitizeUrlList rawUrls).mapIdx (fun i u => batchRow runOne i u) ∧
      events = ((sanitizeUrlList rawUrls).mapIdx fun i u =>
        [BatchEvent.progress (i + 1) (sanitizeUrlList rawUrls).length u,
         BatchEvent.itemResult (batchRow runOne i u)]).flatten ∧
      summary.successCount = (summary.results.filter rowOk).length ∧
      summary.failureCount = (summary.results.filter (fun r => !(rowOk r))).length ∧
      summary.successCount + summary.failureCount = summary.total := by
  have hres := batchLoop_results runOne (sanitizeUrlList rawUrls).length (sanitizeUrlList rawUrls) 0
  have hev := batchLoop_events runOne (sanitizeUrlList rawUrls).length (sanitizeUrlList rawUrls) 0
  have hsplit := rowOk_filter_split
    ((batchLoop runOne (sanitizeUrlList rawUrls).length 0 (sanitizeUrlList rawUrls)).1)
  have hlen : ((batchLoop runOne (sanitizeUrlList rawUrls).length 0
      (sanitizeUrlList rawUrls)).1).length = (sanitizeUrlList rawUrls).length := by
    rw [hres]
    simp
  refine ⟨_, _, runBatch_eq runOne rawUrls h, rfl, ?_, ?_, rfl, ?_, ?_⟩
  · simpa using hres
  · simpa using hev
  · simp only []
    omega
  · simp only []
    omega

/-- The validation prefix of `runResumeDownload` (`background.js`
lines 134-138) wired in front of an abstract remainder `rest`: an invalid
URL throws before anything else runs. -/
def runResumeDownloadModel (rest : String → Except String RunItem)
    (rawUrl : String) : Except String RunItem :=
  match validateLinkedInProfileUrl rawUrl with
  | none => .error "Invalid LinkedIn profile URL. Use https://www.linkedin.com/in/..."
  | some profileUrl => rest profileUrl

def wRunOne : Nat → String → Except String RunItem :=
  fun _ url =>
    runResumeDownloadModel
      (fun pu => .ok { filename := buildDesiredPdfFilename pu, downloadId := some 3,
                       state := "complete" }) url

def wBatchUrls : List String :=
  ["https://www.linkedin.com/in/alice", "www.linkedin.com/in/bob",
   "https://www.linkedin.com/in/carol"]

/-- Witness for the C5 theorem on `[validA, invalidB, validC]` where B
fails validation: three ordered results with B recorded as failed. -/
theorem runBatch_ordered_spec_witness :
    ∃ summary events,
      runBatchResumeDownload wRunOne false wBatchUrls = (.ok (summary, events), false) ∧
      summary.total = (sanitizeUrlList wBatchUrls).length ∧
      summary.results = (sanitizeUrlList wBatchUrls).mapIdx (fun i u => batchRow wRunOne i u) ∧
      events = ((sanitizeUrlList wBatchUrls).mapIdx fun i u =>
        [BatchEvent.progress (i + 1) (sanitizeUrlList wBatchUrls).length u,
         BatchEvent.itemResult (batchRow wRunOne i u)]).flatten ∧
      summary.successCount = (summary.results.filter rowOk).length ∧
      summary.failureCount = (summary.results.filter (fun r => !(rowOk r))).length ∧
      summary.successCount + summary.failureCount = summary.total :=
  runBatch_ordered_spec wRunOne wBatchUrls (by decide)

/-- C1 counterexample: with a batch run active (`activeBatchRun = true`), a
single-target start attempt on a valid URL with an active tab does not
fail with the mutual-exclusion error — `runResumeDownload` consults no
run-in-progress state and proceeds into the workflow. -/
theorem singleRunStart_ignores_flag_cx :
    runResumeDownloadStart true "https://www.linkedin.com/in/jane" (some 7) =
      SingleRunStart.proceeds "https://www.linkedin.com/in/jane" "jane.pdf" := by decide

/-- C1 (amended): mutual exclusion holds only between batch runs: starting
a batch over a non-empty sanitized URL list while `activeBatchRun` is set
fails immediately with the explicit already-running error and leaves the
flag — and hence the first run's in-flight state — undisturbed; the
single-target start path does not consult the flag, so its behaviour is
identical whatever the flag's value. -/
theorem batchExclusion_spec (runOne : Nat → String → Except String RunItem)
    (rawUrls : List String) (rawUrl : String) (tabId : Option Nat) (b b2 : Bool)
    (h : sanitizeUrlList rawUrls ≠ []) :
    runBatchResumeDownload runOne true rawUrls =
      (.error "Another batch run is already in progress. Wait for it to finish.", true) ∧
    runResumeDownloadStart b rawUrl tabId = runResumeDownloadStart b2 rawUrl tabId := by
  constructor
  · simp only [runBatchResumeDownload, if_neg h]
    rfl
  · rfl

/-- Witness for the C1 amended theorem at concrete inputs. -/
theorem batchExclusion_spec_witness :
    runBatchResumeDownload wRunOne true wBatchUrls =
      (.error "Another batch run is already in progress. Wait for it to finish.", true) ∧
    runResumeDownloadStart true "https://www.linkedin.com/in/jane" (some 7) =
      runResumeDownloadStart false "https://www.linkedin.com/in/jane" (some 7) :=
  batchExclusion_spec wRunOne wBatchUrls "https://www.linkedin.com/in/jane" (some 7)
    true false (by decide)

/-- The condition under which C4 asserts the hook suggests an override: a
token is set, the item looks like a PDF, its start time is present and
parses, and the parsed time is within the 90000 ms window of the token's
issue time. -/
def hookClaimCondition (pd : String → Option Int) (pending : Option PendingOverride)
    (item : DownloadItem) : Prop :=
  ∃ p t, pending = some p ∧ looksLikePdf item = true ∧ item.startTime ≠ "" ∧
    pd item.startTime = some t ∧ |t - p.issuedAtMs| ≤ FILENAME_CORRELATION_WINDOW_MS

def cxPending : PendingOverride := { desiredFilename := "x.pdf", issuedAtMs := 5 }

def cxItemNoStart : DownloadItem :=
  { id := 1, state := "", startTime := "", filename := "a.pdf", mime := "",
    finalUrl := "", url := "" }

/-- C4 counterexample: a PDF item with no start time is renamed by the hook
(the current time is substituted and falls inside the window) although its
start time does not parse, so the claimed "suggests iff ... its start time
parses ..." equivalence fails on this input. -/
theorem handleDeterminingFilename_claim_cx :
    handleDeterminingFilename (fun _ => none) 5 (some cxPending) cxItemNoStart =
      .suggestion "x.pdf" "uniquify" ∧
    ¬ hookClaimCondition (fun _ => none) (some cxPending) cxItemNoStart := by
  constructor
  · rfl
  · rintro ⟨p, t, _, _, _, hpd, _⟩
    exact Option.noConfusion hpd

/-- The condition under which the hook actually suggests an override: a
token is set, the item looks like a PDF, and the effective start time
(the parsed start time, or the current time when the item has none) is
within the 90000 ms window of the token's issue time. -/
def hookSuggestCondition (pd : String → Option Int) (nowMs : Int)
    (pending : Option PendingOverride) (item : DownloadItem) : Prop :=
  ∃ p t, pending = some p ∧ looksLikePdf item = true ∧
    effectiveStartMs pd nowMs item = some t ∧
    |t - p.issuedAtMs| ≤ FILENAME_CORRELATION_WINDOW_MS

/-- C4 (amended): the hook suggests the token's desired file name with
conflict action "uniquify" exactly when a token is set, the item looks
like a PDF, and the effective start time — the parsed start time, with the
current time substituted when the item carries none — is within 90000 ms
of the token's issue time; in every other case (no token, cleared token,
non-PDF item, unparseable or out-of-window start time) it falls back to
default naming.  The hook is a total function — the modelled `try`/`catch`
means it never throws to its caller. -/
theorem handleDeterminingFilename_spec (pd : String → Option Int) (nowMs : Int)
    (pending : Option PendingOverride) (item : DownloadItem) :
    (hookSuggestCondition pd nowMs pending item →
      ∃ p, pending = some p ∧
        handleDeterminingFilename pd nowMs pending item =
          .suggestion
            (if p.desiredFilename = "" then DEFAULT_PDF_FILENAME else p.desiredFilename)
            "uniquify") ∧
    (¬ hookSuggestCondition pd nowMs pending item →
      handleDeterminingFilename pd nowMs pending item = .default) := by
  constructor
  · rintro ⟨p, t, hp, hpdf, heff, hwin⟩
    subst hp
    refine ⟨p, rfl, ?_⟩
    simp only [handleDeterminingFilename, hpdf, not_true_eq_false, if_false, heff]
    rw [if_neg (by omega)]
  · intro hn
    cases hp : pending with
    | none => rfl
    | some p =>
      simp only [handleDeterminingFilename]
      by_cases hpdf : looksLikePdf item = true
      · simp only [hpdf, not_true_eq_false, if_false]
        cases heff : effectiveStartMs pd nowMs item with
        | none => rfl
        | some t =>
          have hw : |t - p.issuedAtMs| > FILENAME_CORRELATION_WINDOW_MS := by
            by_contra hw2
            push_neg at hw2
            exact hn ⟨p, t, hp, hpdf, heff, hw2⟩
          simp [hw]
      · simp [hpdf]

def wPending : PendingOverride := { desiredFilename := "jane.pdf", issuedAtMs := 1500 }

/-- Witness for the C4 amended theorem: an item created 500 ms after
issuance is renamed to the token's desired name. -/
theorem handleDeterminingFilename_spec_witness :
    handleDeterminingFilename wPd 0 (some wPending) wItemInProgress =
      .suggestion "jane.pdf" "uniquify" := by
  obtain ⟨p, hp, hres⟩ :=
    (handleDeterminingFilename_spec wPd 0 (some wPending) wItemInProgress).1
      ⟨wPending, 2000, rfl, by decide, rfl, by decide⟩
  injection hp with hp2
  subst hp2
  exact hres

/-- C7 counterexample: an `http` URL on the expected host parses with
scheme `"http"`, yet the canonical form returned hard-codes `https`, so
the canonical form is not "the scheme and host followed by the path" of
the accepted URL. -/
theorem validate_preserves_scheme_cx :
    parseURL "http://www.linkedin.com/in/abc" =
      some { scheme := "http", host := "www.linkedin.com", path := "/in/abc" } ∧
    validateLinkedInProfileUrl "http://www.linkedin.com/in/abc" =
      some "https://www.linkedin.com/in/abc" ∧
    ("https://www.linkedin.com/in/abc" : String) ≠
      "http" ++ "://" ++ "www.linkedin.com" ++ "/in/abc" := by
  refine ⟨by decide, by decide, by decide⟩

/-- C7 (amended): target validation returns a normalized value exactly when
the string parses as an absolute URL whose host is `www.linkedin.com` and
whose path begins with `/in/`; the canonical form is the fixed `https`
scheme and the host followed by the parsed path with query and fragment
removed (the input's own scheme is not preserved).  For every malformed or
off-host string it returns `none`, never a normalized value. -/
theorem validateLinkedInProfileUrl_spec (raw v : String) :
    validateLinkedInProfileUrl raw = some v ↔
      ∃ u, parseURL raw = some u ∧ u.host = "www.linkedin.com" ∧
        strStartsWith u.path "/in/" = true ∧ v = "https://www.linkedin.com" ++ u.path := by
  unfold validateLinkedInProfileUrl
  cases hp : parseURL raw with
  | none => simp
  | some u =>
    constructor
    · intro h
      dsimp only at h
      by_cases hh : u.host = "www.linkedin.com"
      · by_cases hs : strStartsWith u.path "/in/" = true
        · rw [if_neg (by simp [hh]), if_neg (by simp [hs])] at h
          exact ⟨u, rfl, hh, hs, (Option.some_inj.mp h).symm⟩
        · rw [if_neg (by simp [hh]), if_pos (by simp [hs])] at h
          exact absurd h (by simp)
      · rw [if_pos (by simp [hh])] at h
        exact absurd h (by simp)
    · rintro ⟨u2, hu2, hh2, hs2, hv⟩
      injection hu2 with he
      subst he
      subst hv
      dsimp only
      rw [if_neg (by simp [hh2]), if_neg (by simp [hs2])]

/-- Witness for the C7 amended theorem: a well-formed profile URL with a
query string maps to the canonical https host-plus-path form. -/
theorem validateLinkedInProfileUrl_spec_witness :
    validateLinkedInProfileUrl "https://www.linkedin.com/in/ok?x=1" =
      some "https://www.linkedin.com/in/ok" :=
  (validateLinkedInProfileUrl_spec "https://www.linkedin.com/in/ok?x=1"
      "https://www.linkedin.com/in/ok").mpr
    ⟨{ scheme := "https", host := "www.linkedin.com", path := "/in/ok" },
     by decide, rfl, by decide, rfl⟩

/-- Character class `[a-z0-9]` (lower-case alphanumerics). -/
def isLowerAlnum (c : Char) : Bool :=
  (decide (97 ≤ c.toNat) && decide (c.toNat ≤ 122)) ||
  (decide (48 ≤ c.toNat) && decide (c.toNat ≤ 57))

theorem collapseRunsAux_mem (p : Char → Bool) (rep : Char) :
    ∀ (l : List Char) (inRun : Bool) (c : Char),
      c ∈ collapseRunsAux p rep inRun l → c = rep ∨ (p c = false ∧ c ∈ l) := by
  intro l
  induction l with
  | nil => intro inRun c h; cases h
  | cons d ds ih =>
    intro inRun c h
    by_cases hd : p d = true
    · cases inRun with
      | true =>
        simp only [collapseRunsAux, hd, if_true] at h
        rcases ih true c h with h2 | ⟨h2, h3⟩
        · exact Or.inl h2
        · exact Or.inr ⟨h2, List.mem_cons_of_mem d h3⟩
      | false =>
        simp only [collapseRunsAux, hd, if_true] at h
        rcases List.mem_cons.mp h with h2 | h2
        · exact Or.inl h2
        · rcases ih true c h2 with h3 | ⟨h3, h4⟩
          · exact Or.inl h3
          · exact Or.inr ⟨h3, List.mem_cons_of_mem d h4⟩
    · have hd2 : p d = false := by simpa using hd
      simp only [collapseRunsAux, hd2, Bool.false_eq_true, if_false] at h
      rcases List.mem_cons.mp h with h2 | h2
      · exact Or.inr ⟨h2 ▸ hd2, h2 ▸ List.mem_cons_self d ds⟩
      · rcases ih false c h2 with h3 | ⟨h3, h4⟩
        · exact Or.inl h3
        · exact Or.inr ⟨h3, List.mem_cons_of_mem d h4⟩

theorem collapseRunsAux_id (p : Char → Bool) (rep : Char) :
    ∀ (l : List Char), (∀ c ∈ l, p c = false) →
      collapseRunsAux p rep false l = l := by
  intro l
  induction l with
  | nil => intro _; rfl
  | cons d ds ih =>
    intro h
    have hd : p d = false := h d (List.mem_cons_self d ds)
    simp only [collapseRunsAux, hd, Bool.false_eq_true, if_false]
    rw [ih (fun c hc => h c (List.mem_cons_of_mem d hc))]

theorem collapseRunsAux_cons_pos (p : Char → Bool) (rep : Char) (d : Char)
    (ds : List Char) (hd : p d = true) :
    collapseRunsAux p rep true (d :: ds) = collapseRunsAux p rep true ds ∧
    collapseRunsAux p rep false (d :: ds) = rep :: collapseRunsAux p rep true ds := by
  constructor <;> simp [collapseRunsAux, hd]

theorem collapseRunsAux_cons_neg (p : Char → Bool) (rep : Char) (d : Char)
    (ds : List Char) (hd : p d = false) (inRun : Bool) :
    collapseRunsAux p rep inRun (d :: ds) = d :: collapseRunsAux p rep false ds := by
  cases inRun <;> simp [collapseRunsAux, hd]

theorem collapseRunsAux_chain (p : Char → Bool) (rep : Char) :
    ∀ l : List Char,
      List.Chain' (fun a b => p a = false ∨ p b = false) (collapseRunsAux p rep true l) ∧
      List.Chain' (fun a b => p a = false ∨ p b = false) (collapseRunsAux p rep false l) ∧
      (∀ c, (collapseRunsAux p rep true l).head? = some c → p c = false) := by
  intro l
  induction l with
  | nil => exact ⟨List.chain'_nil, List.chain'_nil, fun c h => by cases h⟩
  | cons d ds ih =>
    obtain ⟨ih1, ih2, ih3⟩ := ih
    by_cases hd : p d = true
    · obtain ⟨he1, he2⟩ := collapseRunsAux_cons_pos p rep d ds hd
      refine ⟨he1 ▸ ih1, ?_, ?_⟩
      · rw [he2, List.chain'_cons']
        exact ⟨fun b hb => Or.inr (ih3 b hb), ih1⟩
      · intro c h
        rw [he1] at h
        exact ih3 c h
    · have hd2 : p d = false := by simpa using hd
      have he := collapseRunsAux_cons_neg p rep d ds hd2
      refine ⟨?_, ?_, ?_⟩
      · rw [he true, List.chain'_cons']
        exact ⟨fun b _ => Or.inl hd2, ih2⟩
      · rw [he false, List.chain'_cons']
        exact ⟨fun b _ => Or.inl hd2, ih2⟩
      · intro c h
        rw [he true] at h
        simp only [List.head?] at h
        injection h with h2
        exact h2 ▸ hd2

theorem collapseRunsAux_id_of_chain (p : Char → Bool) (rep : Char) :
    ∀ l : List Char,
      List.Chain' (fun a b => p a = false ∨ p b = false) l →
      (∀ c ∈ l, p c = true → c = rep) →
      collapseRunsAux p rep false l = l := by
  intro l
  induction l with
  | nil => intro _ _; rfl
  | cons d ds ih =>
    intro hch hall
    by_cases hd : p d = true
    · have hdr : d = rep := hall d (List.mem_cons_self d ds) hd
      rw [(collapseRunsAux_cons_pos p rep d ds hd).2, hdr]
      cases ds with
      | nil => rfl
      | cons e es =>
        have hpair := List.chain'_cons.mp hch
        have hre : p e = false := by
          rcases hpair.1 with h | h
          · rw [hd] at h
            exact Bool.noConfusion h
          · exact h
        have hih := ih hpair.2
          (fun c hc hp => hall c (List.mem_cons_of_mem d hc) hp)
        rw [collapseRunsAux_cons_neg p rep e es hre] at hih
        rw [collapseRunsAux_cons_neg p rep e es hre, hih]
    · have hd2 : p d = false := by simpa using hd
      rw [collapseRunsAux_cons_neg p rep d ds hd2,
        ih hch.tail (fun c hc hp => hall c (List.mem_cons_of_mem d hc) hp)]

theorem collapseRunsAux_comb (p : Char → Bool) (rep : Char) :
    ∀ l : List Char,
      (collapseRunsAux (fun c => c == rep) rep false (collapseRunsAux p rep false l) =
        collapseRunsAux (fun c => p c || (c == rep)) rep false l) ∧
      (∀ b : Bool,
        collapseRunsAux (fun c => c == rep) rep true (collapseRunsAux p rep b l) =
          collapseRunsAux (fun c => p c || (c == rep)) rep true l) := by
  intro l
  induction l with
  | nil =>
    constructor
    · rfl
    · intro b
      cases b <;> rfl
  | cons d ds ih =>
    obtain ⟨ih1, ih2⟩ := ih
    have hrr : ((rep == rep) : Bool) = true := beq_self_eq_true rep
    by_cases hpd : p d = true
    · have hcomb : (p d || (d == rep)) = true := by simp [hpd]
      obtain ⟨hp1, hp2⟩ := collapseRunsAux_cons_pos p rep d ds hpd
      obtain ⟨hc1, hc2⟩ :=
        collapseRunsAux_cons_pos (fun c => p c || (c == rep)) rep d ds hcomb
      obtain ⟨hh1, hh2⟩ :=
        collapseRunsAux_cons_pos (fun c => c == rep) rep rep
          (collapseRunsAux p rep true ds) hrr
      constructor
      · rw [hp2, hh2, hc2, ih2 true]
      · intro b
        cases b
        · rw [hp2, hh1, hc1, ih2 true]
        · rw [hp1, hc1, ih2 true]
    · have hpd2 : p d = false := by simpa using hpd
      have hpe := collapseRunsAux_cons_neg p rep d ds hpd2
      by_cases hdr : d = rep
      · have hdrb : ((d == rep) : Bool) = true := by simp [hdr]
        have hcomb : (p d || (d == rep)) = true := by simp [hdrb]
        obtain ⟨hc1, hc2⟩ :=
          collapseRunsAux_cons_pos (fun c => p c || (c == rep)) rep d ds hcomb
        obtain ⟨hh1, hh2⟩ :=
          collapseRunsAux_cons_pos (fun c => c == rep) rep d
            (collapseRunsAux p rep false ds) hdrb
        constructor
        · rw [hpe false, hh2, hc2, ih2 false]
        · intro b
          rw [hpe b, hh1, hc1, ih2 false]
      · have hdr2 : ((d == rep) : Bool) = false := by simpa using hdr
        have hcomb : (p d || (d == rep)) = false := by simp [hpd2, hdr2]
        have hce := collapseRunsAux_cons_neg (fun c => p c || (c == rep)) rep d ds hcomb
        have hhe := collapseRunsAux_cons_neg (fun c => c == rep) rep d
          (collapseRunsAux p rep false ds) hdr2
        constructor
        · rw [hpe false, hhe false, hce false, ih1]
        · intro b
          rw [hpe b, hhe true, hce true, ih1]

/-- No two adjacent hyphens. -/
def hyphChain (l : List Char) : Prop :=
  List.Chain' (fun a b => ((a == '-') : Bool) = false ∨ ((b == '-') : Bool) = false) l

/-- No leading hyphen. -/
def headNotHyphen (l : List Char) : Prop :=
  ∀ c, l.head? = some c → ((c == '-') : Bool) = false

theorem mem_dropLeadHyphen (l : List Char) (c : Char) (h : c ∈ dropLeadHyphen l) : c ∈ l := by
  cases l with
  | nil => cases h
  | cons d ds =>
    by_cases hd : d = '-'
    · rw [dropLeadHyphen, if_pos hd] at h
      exact List.mem_cons_of_mem d h
    · rwa [dropLeadHyphen, if_neg hd] at h

theorem dropLeadHyphen_suffix (l : List Char) : dropLeadHyphen l <:+ l := by
  cases l with
  | nil => exact List.suffix_refl []
  | cons d ds =>
    by_cases hd : d = '-'
    · rw [dropLeadHyphen, if_pos hd]
      exact List.suffix_cons d ds
    · rw [dropLeadHyphen, if_neg hd]

theorem hyphChain_dropLeadHyphen (l : List Char) (h : hyphChain l) :
    hyphChain (dropLeadHyphen l) := by
  cases l with
  | nil => exact h
  | cons d ds =>
    by_cases hd : d = '-'
    · rw [dropLeadHyphen, if_pos hd]
      exact h.tail
    · rwa [dropLeadHyphen, if_neg hd]

theorem headNot_dropLeadHyphen (l : List Char) (h : hyphChain l) :
    headNotHyphen (dropLeadHyphen l) := by
  cases l with
  | nil => intro c hc; cases hc
  | cons d ds =>
    by_cases hd : d = '-'
    · rw [dropLeadHyphen, if_pos hd]
      intro c hc
      have := (List.chain'_cons'.mp h).1 c hc
      rcases this with h2 | h2
      · rw [hd] at h2
        simp at h2
      · exact h2
    · rw [dropLeadHyphen, if_neg hd]
      intro c hc
      injection hc with hc2
      subst hc2
      simpa using hd

theorem hyphChain_reverse (l : List Char) (h : hyphChain l) : hyphChain l.reverse := by
  unfold hyphChain at h ⊢
  rw [List.chain'_reverse]
  exact h.imp (fun a b hab => Or.symm hab)

theorem dropLeadHyphen_of_headNot (l : List Char) (h : headNotHyphen l) :
    dropLeadHyphen l = l := by
  cases l with
  | nil => rfl
  | cons d ds =>
    have := h d rfl
    have hd : d ≠ '-' := by simpa using this
    simp only [dropLeadHyphen, if_neg hd]

theorem mem_trimHyphens (l : List Char) (c : Char) (h : c ∈ trimHyphens l) : c ∈ l := by
  unfold trimHyphens at h
  rw [List.mem_reverse] at h
  have h2 := mem_dropLeadHyphen _ _ h
  rw [List.mem_reverse] at h2
  exact mem_dropLeadHyphen _ _ h2

theorem hyphChain_trimHyphens (l : List Char) (h : hyphChain l) :
    hyphChain (trimHyphens l) := by
  unfold trimHyphens
  exact hyphChain_reverse _ (hyphChain_dropLeadHyphen _ (hyphChain_reverse _
    (hyphChain_dropLeadHyphen _ h)))

theorem headNot_trimHyphens (l : List Char) (h : hyphChain l) :
    headNotHyphen (trimHyphens l) := by
  intro c hc
  unfold trimHyphens at hc
  have hpre : (dropLeadHyphen ((dropLeadHyphen l).reverse)).reverse <+: dropLeadHyphen l := by
    have hsuf := dropLeadHyphen_suffix ((dropLeadHyphen l).reverse)
    have := List.reverse_prefix.mpr hsuf
    simpa using this
  obtain ⟨t, ht⟩ := hpre
  have hhead : (dropLeadHyphen l).head? = some c := by
    rw [← ht]
    cases hl : (dropLeadHyphen ((dropLeadHyphen l).reverse)).reverse with
    | nil => rw [hl] at hc; cases hc
    | cons a b =>
      rw [hl] at hc
      injection hc with hc2
      subst hc2
      rfl
  exact headNot_dropLeadHyphen l h c hhead

theorem lastNot_trimHyphens (l : List Char) (h : hyphChain l) :
    headNotHyphen (trimHyphens l).reverse := by
  unfold trimHyphens
  rw [List.reverse_reverse]
  exact headNot_dropLeadHyphen _ (hyphChain_reverse _ (hyphChain_dropLeadHyphen _ h))

theorem trimHyphens_of_headNot_lastNot (l : List Char)
    (h1 : headNotHyphen l) (h2 : headNotHyphen l.reverse) :
    trimHyphens l = l := by
  unfold trimHyphens
  rw [dropLeadHyphen_of_headNot l h1, dropLeadHyphen_of_headNot l.reverse h2,
    List.reverse_reverse]

theorem jsLower_of_isSlugChar (c : Char) (h : isSlugChar c = true) : jsLower c = c := by
  unfold jsLower
  rw [if_neg]
  intro ⟨h1, h2⟩
  simp only [isSlugChar, Bool.or_eq_true, Bool.and_eq_true, decide_eq_true_eq,
    beq_iff_eq] at h
  rcases h with (⟨h3, h4⟩ | ⟨h3, h4⟩) | h3
  · omega
  · omega
  · subst h3
    exact absurd h1 (by decide)

theorem map_jsLower_id (l : List Char) (h : ∀ c ∈ l, isSlugChar c = true) :
    l.map jsLower = l := by
  induction l with
  | nil => rfl
  | cons d ds ih =>
    simp only [List.map_cons]
    rw [jsLower_of_isSlugChar d (h d (List.mem_cons_self d ds)),
      ih (fun c hc => h c (List.mem_cons_of_mem d hc))]

theorem slugTransform_allGood (l : List Char) :
    ∀ c ∈ slugTransform l, isSlugChar c = true := by
  intro c hc
  unfold slugTransform at hc
  have hc2 := mem_trimHyphens _ _ hc
  rcases collapseRunsAux_mem _ _ _ _ _ hc2 with h | ⟨_, h2⟩
  · subst h
    decide
  · rcases collapseRunsAux_mem _ _ _ _ _ h2 with h3 | ⟨h3, _⟩
    · subst h3
      decide
    · simpa using h3

theorem slugTransform_hyphChain (l : List Char) : hyphChain (slugTransform l) := by
  unfold slugTransform collapseRuns
  exact hyphChain_trimHyphens _ (collapseRunsAux_chain (fun c => c == '-') '-' _).2.1

/-- Re-applying the slug normalisation pipeline to an already-normalised
slug leaves it unchanged. -/
theorem slugTransform_idem (l : List Char) :
    slugTransform (slugTransform l) = slugTransform l := by
  have hgood := slugTransform_allGood l
  have hchain := slugTransform_hyphChain l
  have hmap : (slugTransform l).map jsLower = slugTransform l :=
    map_jsLower_id _ hgood
  have hB : collapseRunsAux (fun c => !(isSlugChar c)) '-' false (slugTransform l) =
      slugTransform l :=
    collapseRunsAux_id _ _ _ (fun c hc => by simp [hgood c hc])
  have hH : collapseRunsAux (fun c => c == '-') '-' false (slugTransform l) =
      slugTransform l :=
    collapseRunsAux_id_of_chain _ _ _ hchain (fun c _ hp => by simpa using hp)
  have htrim : trimHyphens (slugTransform l) = slugTransform l := by
    refine trimHyphens_of_headNot_lastNot _ ?_ ?_
    · unfold slugTransform
      exact headNot_trimHyphens _
        (collapseRunsAux_chain (fun c => c == '-') '-' _).2.1
    · unfold slugTransform
      exact lastNot_trimHyphens _
        (collapseRunsAux_chain (fun c => c == '-') '-' _).2.1
  show trimHyphens (collapseRuns (fun c => c == '-') '-'
    (collapseRuns (fun c => !(isSlugChar c)) '-' ((slugTransform l).map jsLower))) =
    slugTransform l
  unfold collapseRuns
  rw [hmap, hB, hH, htrim]

theorem comb_pointwise (c : Char) :
    ((!(isSlugChar c)) || (c == '-')) = !(isLowerAlnum c) := by
  by_cases hc : c = '-'
  · subst hc
    decide
  · have hcb : ((c == '-') : Bool) = false := by simpa using hc
    simp [isSlugChar, isLowerAlnum, hcb]

/-- The slug pipeline written as the single pass the spec describes: runs
of anything that is not a lower-case alphanumeric collapse to one `-`,
then the ends are trimmed. -/
theorem slugTransform_eq_single_pass (l : List Char) :
    slugTransform l =
      trimHyphens (collapseRuns (fun c => !(isLowerAlnum c)) '-' (l.map jsLower)) := by
  unfold slugTransform collapseRuns
  rw [(collapseRunsAux_comb (fun c => !(isSlugChar c)) '-' (l.map jsLower)).1]
  have hpred : (fun c => (!(isSlugChar c)) || (c == '-')) =
      (fun c => !(isLowerAlnum c)) := funext comb_pointwise
  rw [hpred]

/-- The slug of one path segment as the amended claim words it. -/
def specSlugOf (s : String) : String :=
  (trimHyphens (collapseRuns (fun c => !(isLowerAlnum c)) '-' (s.toList.map jsLower))).asString

/-- The derived output file name as the amended claim words it: the second
path segment (the one immediately after the leading `in` segment),
normalised by the single-pass slug transformation, `.pdf`-suffixed, with
the fixed fallback base name when the segment is missing or its slug is
empty. -/
def specDesiredFilename (profileUrl : String) : String :=
  match parseURL profileUrl with
  | none => "linkedin-profile.pdf"
  | some u =>
    match ((splitOnChar '/' u.path.toList).map List.asString).filter (fun s => s ≠ "") with
    | p0 :: seg :: _ =>
      if p0 = "in" then
        (if specSlugOf seg = "" then "linkedin-profile.pdf" else specSlugOf seg ++ ".pdf")
      else "linkedin-profile.pdf"
    | _ => "linkedin-profile.pdf"

theorem buildDesired_eq_spec (url : String) :
    buildDesiredPdfFilename url = specDesiredFilename url := by
  unfold buildDesiredPdfFilename extractProfileSlugFromUrl specDesiredFilename
  cases hp : parseURL url with
  | none => rfl
  | some u =>
    dsimp only
    cases hparts : ((splitOnChar '/' u.path.toList).map List.asString).filter
        (fun s => s ≠ "") with
    | nil => rfl
    | cons p0 rest =>
      cases rest with
      | nil => rfl
      | cons p1 rest2 =>
        have hp1 : p1 ≠ "" := by
          have hm : p1 ∈ ((splitOnChar '/' u.path.toList).map List.asString).filter
              (fun s => s ≠ "") := by
            rw [hparts]
            exact List.mem_cons_of_mem p0 (List.mem_cons_self p1 rest2)
          have := List.of_mem_filter hm
          simpa using this
        have hslug : (slugTransform p1.toList).asString = specSlugOf p1 := by
          rw [slugTransform_eq_single_pass]
          rfl
        dsimp only
        by_cases h0 : p0 = "in"
        · rw [if_pos (show ((p0 == "in" && p1 != "") = true) by simp [h0, hp1]),
            if_pos h0, hslug]
          by_cases hempty : specSlugOf p1 = ""
          · simp [hempty]
          · simp [hempty]
        · rw [if_neg (show ¬((p0 == "in" && p1 != "") = true) by simp [h0]),
            if_neg h0]
          rfl

/-- The slug transformation exactly as the original claim words it: runs
outside `[a-z0-9-]` collapse to one `-` and the ends are trimmed — with no
collapsing of runs of `-` themselves. -/
def claimSlugTransform (l : List Char) : List Char :=
  trimHyphens (collapseRuns (fun c => !(isSlugChar c)) '-' (l.map jsLower))

/-- The derived file name exactly as the original claim words it: built
from the final path segment via `claimSlugTransform`. -/
def finalSegmentFilename (profileUrl : String) : String :=
  match parseURL profileUrl with
  | none => "linkedin-profile.pdf"
  | some u =>
    match (((splitOnChar '/' u.path.toList).map List.asString).filter
        (fun s => s ≠ "")).getLast? with
    | none => "linkedin-profile.pdf"
    | some seg =>
      if (claimSlugTransform seg.toList).asString = "" then "linkedin-profile.pdf"
      else (claimSlugTransform seg.toList).asString ++ ".pdf"

/-- C8 counterexample: on the canonical target
`https://www.linkedin.com/in/a--b/extra` the code derives `a-b.pdf` — it
slugs the segment after `/in/` and collapses the hyphen run — while the
claimed formula (final path segment, no hyphen-run collapse) yields
`extra.pdf`. -/
theorem buildDesiredPdfFilename_final_segment_cx :
    validateLinkedInProfileUrl "https://www.linkedin.com/in/a--b/extra" =
      some "https://www.linkedin.com/in/a--b/extra" ∧
    buildDesiredPdfFilename "https://www.linkedin.com/in/a--b/extra" = "a-b.pdf" ∧
    finalSegmentFilename "https://www.linkedin.com/in/a--b/extra" = "extra.pdf" ∧
    ("a-b.pdf" : String) ≠ "extra.pdf" :=
  ⟨by decide, by decide, by decide, by decide⟩

/-- C8 (amended): the derived output file name is the second path segment
— the one immediately after the leading `in` segment — lower-cased, with
every run of characters outside `[a-z0-9]` (hyphen runs included)
collapsed to a single `-` and one leading/trailing `-` trimmed, suffixed
`.pdf`, falling back to the fixed base name `linkedin-profile` when the
segment is missing or its slug is empty; and slug derivation is
idempotent — the derivation is a pure function of the canonical target,
and re-applying the slug transformation to an already-derived slug leaves
it unchanged. -/
theorem buildDesiredPdfFilename_spec (url : String) (s : List Char) :
    buildDesiredPdfFilename url = specDesiredFilename url ∧
    slugTransform (slugTransform s) = slugTransform s :=
  ⟨buildDesired_eq_spec url, slugTransform_idem s⟩

/-- A delivery history in which the created listener, the changed listener
and the deadline timer all try to finish the same session. -/
def wTimerEvs : List TrackerEvent :=
  [.created wItemInProgress,
   .changed { id := 7, stateCurrent := some "complete" } (some wItemComplete),
   .timer (some wItemComplete)]

/-- Witness for the C2 theorem: even with created, changed-to-complete and
the deadline timer all firing, the session settles once and cleanup runs
once. -/
theorem tracker_single_settlement_witness :
    (runTracker wPd 1500 "fb.pdf" wTimerEvs).settleCount = 1 ∧
    (runTracker wPd 1500 "fb.pdf" wTimerEvs).cleanupCount = 1 :=
  (tracker_single_settlement wPd 1500 "fb.pdf" wTimerEvs).2.2.2
    ⟨some wItemComplete, by decide⟩
